import Mathlib

/-!
Shallow embedding of the timeline-editing core of the video-editor frontend.

Times are modelled as rationals (`ℚ`); the JavaScript numbers of the source
are IEEE doubles, but every claim below is about the algebrara of the
operations, which the source writes with exact constants (0.1, 0.08, 0.001),
so `ℚ` is the faithful executable carrier.

Sources embedded:
* `src/src/components/Timeline.tsx` (the rich Timeline component):
  the `Split`/`Marker`/`HistoryState` types, `MIN_PART`, `SNAP_THRESHOLD`,
  `pxToTime`, `timeToPx`, `snapTime`, `splitAtPlayhead`, `deleteSelected`,
  `toggleMute`, `changeSpeed`, `mergeSelected`, `duplicateSelected`,
  `startDragHandle` (its committed effect), `saveToHistory`, `undo`, `redo`.
* `src/src/context/SplitProvider.tsx`: the normalizing `setSplits` setter.

JavaScript `Array.prototype.sort` with comparator `(a, b) => a.start - b.start`
is modelled by `List.insertionSort` on the relation `a.start ≤ b.start`
(a stable comparison sort, as the ECMAScript specification requires).
`generateId()` returns a fresh random identifier; we model the id pool by a
`nextId : Nat` parameter, fresh ids being `nextId`, `nextId + 1`, … .
-/

namespace VideoEditor

/-- The `Split` record of `Timeline.tsx` (plus the `prompt` field carried by
the provider's `Split` type in `src/types`); `thumbnail` is an opaque image
reference, modelled as `Option Nat`. Optional JS fields absent from a record
behave as `false` / `undefined`, modelled by the defaults below. -/
structure Split where
  id : Nat
  start : ℚ
  «end» : ℚ
  duration : ℚ
  thumbnail : Option Nat := none
  locked : Bool := false
  muted : Bool := false
  speed : Option ℚ := none
  label : Option String := none
  color : Option String := none
  prompt : Option String := none
deriving DecidableEq, Repr

/-- The `Marker` record of `Timeline.tsx`. -/
structure Marker where
  id : Nat
  time : ℚ
  label : String
  color : String
deriving DecidableEq, Repr

/-- `const MIN_PART = 0.1` -/
def MIN_PART : ℚ := 1 / 10

/-- `const SNAP_THRESHOLD = 0.08` -/
def SNAP_THRESHOLD : ℚ := 2 / 25

/-- The comparator `(a, b) => a.start - b.start` used by every
`.sort` call in `Timeline.tsx`, as an ordering relation. -/
def byStart (a b : Split) : Prop := a.start ≤ b.start

instance : DecidableRel byStart := fun a b => inferInstanceAs (Decidable (a.start ≤ b.start))

instance : IsTotal Split byStart := ⟨fun a b => le_total a.start b.start⟩

instance : IsTrans Split byStart := ⟨fun _ _ _ h h2 => le_trans h h2⟩

/-- `.sort((a, b) => a.start - b.start)` — stable sort by `start`. -/
def sortByStart (l : List Split) : List Split := l.insertionSort byStart

/-- `pxToTime` of `Timeline.tsx`:
`const total = Math.max(1, duration); return Math.max(0, Math.min(total, (px / timelineWidth) * total));` -/
def pxToTime (duration timelineWidth px : ℚ) : ℚ :=
  let total := max 1 duration
  max 0 (min total (px / timelineWidth * total))

/-- `timeToPx` of `Timeline.tsx`:
`const total = Math.max(1, duration); return (t / total) * timelineWidth;` -/
def timeToPx (duration timelineWidth t : ℚ) : ℚ :=
  let total := max 1 duration
  t / total * timelineWidth

/-- `snapTime` of `Timeline.tsx`: if snapping is disabled return `time`
unchanged, else return the first element of `otherTimes` at strict distance
less than `SNAP_THRESHOLD` from `time`, else `time`. -/
def snapTime (snapEnabled : Bool) (time : ℚ) (otherTimes : List ℚ) : ℚ :=
  if !snapEnabled then time
  else
    match otherTimes.find? (fun t => decide (|time - t| < SNAP_THRESHOLD)) with
    | some t => t
    | none => time

/-- `splitAtPlayhead` of `Timeline.tsx`, at playhead time `t`; fresh ids for
the two halves are `nextId` and `nextId + 1`.  The source locates the first
split with `t >= s.start && t < s.end`; if none is found, or the found split
is locked, or `t` is within `MIN_PART` of either edge, the list is unchanged;
otherwise the found split is replaced in place by its two halves, which share
its metadata except id, duration and (cleared) thumbnail. -/
def splitAtPlayhead (t : ℚ) (nextId : Nat) : List Split → List Split
  | [] => []
  | s :: rest =>
    if s.start ≤ t ∧ t < s.«end» then
      if s.locked then s :: rest
      else if t - s.start < MIN_PART ∨ s.«end» - t < MIN_PART then s :: rest
      else
        { s with id := nextId, «end» := t, duration := t - s.start, thumbnail := none }
          :: { s with id := nextId + 1, start := t, duration := s.«end» - t, thumbnail := none }
          :: rest
    else s :: splitAtPlayhead t nextId rest

/-- `deleteSelected` of `Timeline.tsx`.  `sel` is the selection set
(`selectedSplits`).  The source keeps `remaining = splits.filter(s =>
!selectedSplits.has(s.id) && !s.locked)`; it is a no-op when the selection is
empty or when nothing would remain.  In ripple mode the remaining splits are
sorted by start and re-packed starting from `let currentTime = 0` — note the
source never increments `currentTime` inside the `map`, so every re-packed
split gets `start = 0, end = 0 + s.duration`. -/
def deleteSelected (rippleMode : Bool) (sel : List Nat) (splits : List Split) : List Split :=
  if sel = [] then splits
  else
    let remaining := splits.filter (fun s => !(decide (s.id ∈ sel)) && !s.locked)
    if remaining = [] then splits
    else if rippleMode then
      (sortByStart remaining).map (fun s => { s with start := 0, «end» := 0 + s.duration })
    else remaining

/-- `toggleMute` of `Timeline.tsx`: flips `muted` on every split whose id is
in the selection; no-op on empty selection.  (The source checks no `locked`
flag here.) -/
def toggleMute (sel : List Nat) (splits : List Split) : List Split :=
  if sel = [] then splits
  else splits.map (fun s => if s.id ∈ sel then { s with muted := !s.muted } else s)

/-- `changeSpeed` of `Timeline.tsx`: sets `speed` on every split whose id is
in the selection; no-op on empty selection.  (The source checks no `locked`
flag here.) -/
def changeSpeed (speed : ℚ) (sel : List Nat) (splits : List Split) : List Split :=
  if sel = [] then splits
  else splits.map (fun s => if s.id ∈ sel then { s with speed := some speed } else s)

/-- `splits.filter(s => selectedSplits.has(s.id))` — the splits whose id is
in the selection, in list order. -/
def selectedOf (sel : List Nat) (splits : List Split) : List Split :=
  splits.filter (fun s => decide (s.id ∈ sel))

/-- The `canMerge` loop of `mergeSelected`: adjacent selected splits must
satisfy `Math.abs(selected[i].end - selected[i+1].start) <= 0.001`. -/
def canMergeChain : List Split → Bool
  | [] => true
  | [_] => true
  | a :: b :: rest => decide (|a.«end» - b.start| ≤ 1 / 1000) && canMergeChain (b :: rest)

/-- `mergeSelected` of `Timeline.tsx`: no-op when fewer than two ids are
selected; sorts the selected splits by start, checks pairwise contiguity
(`canMergeChain`), and replaces them with one merged split (fresh id, first
split's start and color, last split's end, speed 1, cleared thumbnail), the
result re-sorted by start.  When the selection matches no split the source
dereferences `selected[0]` of an empty array and throws before any state
update, leaving the stored splits unchanged — modelled as the identity. -/
def mergeSelected (nextId : Nat) (sel : List Nat) (splits : List Split) : List Split :=
  if sel.length < 2 then splits
  else
    match sortByStart (selectedOf sel splits) with
    | [] => splits
    | s0 :: tail =>
      if canMergeChain (s0 :: tail) then
        let lastSel := (s0 :: tail).getLast (List.cons_ne_nil s0 tail)
        let merged : Split :=
          { id := nextId, start := s0.start, «end» := lastSel.«end»,
            duration := lastSel.«end» - s0.start, speed := some 1,
            color := s0.color, thumbnail := none }
        sortByStart (splits.filter (fun s => !(decide (s.id ∈ sel))) ++ [merged])
      else splits

/-- `Math.max(...splits.map(s => s.end))` over a non-empty list (the source
only evaluates it when the selection — hence the split list — is non-empty;
on an empty list we return 0, a case in which the callers below append no
copies anyway). -/
def listMaxEnd : List Split → ℚ
  | [] => 0
  | s :: rest => rest.foldl (fun m x => max m x.«end») s.«end»

/-- The duplicated copies built by `duplicateSelected`: for each selected
split `s` (in list order, `s0` being the first selected), a copy with a fresh
id, `start = maxEnd + (s.start - s0.start)`, `end = maxEnd + (s.end -
s0.start)`, and — exactly as the source writes it — `thumbnail: s.thumbnail`
(the thumbnail is kept, not cleared). -/
def dupCopies (sel : List Nat) (nextId : Nat) (splits : List Split) : List Split :=
  let selected := selectedOf sel splits
  match selected with
  | [] => []
  | s0 :: _ =>
    let maxEnd := listMaxEnd splits
    selected.enum.map (fun p =>
      { p.2 with id := nextId + p.1,
                 start := maxEnd + (p.2.start - s0.start),
                 «end» := maxEnd + (p.2.«end» - s0.start),
                 thumbnail := p.2.thumbnail })

/-- `duplicateSelected` of `Timeline.tsx`: no-op on empty selection; appends
the copies (`dupCopies`) to the split list and re-sorts by start. -/
def duplicateSelected (sel : List Nat) (nextId : Nat) (splits : List Split) : List Split :=
  if sel = [] then splits
  else sortByStart (splits ++ dupCopies sel nextId splits)

/-- The committed effect of one `startDragHandle` gesture of `Timeline.tsx`
whose last pointer-move had cumulative time delta `dt`: the boundary between
splits `idx` and `idx + 1` becomes `left.end + dt`, clamped to
`[left.start + MIN_PART, right.end - MIN_PART]`, then snapped to the marker
times; both neighbours' edges and durations are updated atomically.  No-op if
either index is out of range or either neighbour is locked. -/
def dragBoundary (snapEnabled : Bool) (markerTimes : List ℚ) (idx : Nat) (dt : ℚ)
    (splits : List Split) : List Split :=
  match splits[idx]?, splits[idx + 1]? with
  | some left, some right =>
    if left.locked || right.locked then splits
    else
      let b0 := left.«end» + dt
      let b1 := max b0 (left.start + MIN_PART)
      let b2 := min b1 (right.«end» - MIN_PART)
      let boundary := snapTime snapEnabled b2 markerTimes
      (splits.set idx { left with «end» := boundary, duration := boundary - left.start }).set
        (idx + 1) { right with start := boundary, duration := right.«end» - boundary }
  | _, _ => splits

/-- The `HistoryState` record of `Timeline.tsx`. -/
structure HistoryState where
  splits : List Split
  markers : List Marker
deriving DecidableEq, Repr

/-- The component state that `saveToHistory` / `undo` / `redo` act upon:
the live `splits` and `markers` plus the history array and
`historyIndex` (initialized to `-1` in the source, hence an `Int`). -/
@[ext]
structure EditorState where
  splits : List Split
  markers : List Marker
  history : List HistoryState
  historyIndex : Int
deriving DecidableEq, Repr

/-- `saveToHistory` of `Timeline.tsx`: truncate the history after the cursor
(`history.slice(0, historyIndex + 1)`), push a snapshot of the live state,
drop the oldest entry if the length exceeds 50, and point the cursor at the
new last entry. -/
def saveToHistory (st : EditorState) : EditorState :=
  let newState : HistoryState := ⟨st.splits, st.markers⟩
  let pushed := st.history.take (st.historyIndex + 1).toNat ++ [newState]
  let newHistory := if 50 < pushed.length then pushed.drop 1 else pushed
  { st with history := newHistory, historyIndex := (newHistory.length : Int) - 1 }

/-- `undo` of `Timeline.tsx`: if `historyIndex > 0`, restore
`history[historyIndex - 1]` and decrement the cursor; else no-op.  (When the
index were out of range the source would read `undefined`; that cannot happen
for a cursor within the history, and is modelled as a no-op.) -/
def undo (st : EditorState) : EditorState :=
  if 0 < st.historyIndex then
    match st.history[(st.historyIndex - 1).toNat]? with
    | some prev =>
      { st with splits := prev.splits, markers := prev.markers,
                historyIndex := st.historyIndex - 1 }
    | none => st
  else st

/-- `redo` of `Timeline.tsx`: if `historyIndex < history.length - 1`, restore
`history[historyIndex + 1]` and increment the cursor; else no-op. -/
def redo (st : EditorState) : EditorState :=
  if st.historyIndex < (st.history.length : Int) - 1 then
    match st.history[(st.historyIndex + 1).toNat]? with
    | some next =>
      { st with splits := next.splits, markers := next.markers,
                historyIndex := st.historyIndex + 1 }
    | none => st
  else st

/-- `+x.toFixed(3)`: round to 3 decimal places; ECMAScript `toFixed` picks,
among the two nearest multiples of 10⁻³, the larger on a tie. -/
def round3 (x : ℚ) : ℚ := (⌊x * 1000 + 1 / 2⌋ : ℚ) / 1000

/-- Rewrite the last element of a list with `f`. -/
def mapLast (f : Split → Split) : List Split → List Split
  | [] => []
  | [a] => [f a]
  | a :: b :: rest => a :: mapLast f (b :: rest)

/-- `setSplits` of `SplitProvider.tsx` with the provider's `duration` state as
first argument: an empty input is stored as is; otherwise every split's
`duration` is recomputed as `+(end - start).toFixed(3)`; then, when the media
duration is known, the last split is overwritten with `end =
+duration.toFixed(3)` and `duration = max(0, +(duration -
sumExceptLast).toFixed(3))` where `sumExceptLast` sums the recomputed
durations of all but the last split. -/
def setSplits (duration : Option ℚ) (s : List Split) : List Split :=
  if s = [] then []
  else
    let normalized := s.map (fun ss => { ss with duration := round3 (ss.«end» - ss.start) })
    match duration with
    | none => normalized
    | some d =>
      let sumExceptLast := (normalized.dropLast.map (fun b => b.duration)).sum
      let correctedLastDur := max 0 (round3 (d - sumExceptLast))
      mapLast (fun lastS => { lastS with duration := correctedLastDur, «end» := round3 d })
        normalized

/-- The partition predicate: the splits, in list order, tile `[t, D]`
exactly: each split starts where its predecessor ends (the first at `t`), and
the last ends at `D`. -/
def chainFrom (t D : ℚ) : List Split → Prop
  | [] => t = D
  | s :: rest => s.start = t ∧ chainFrom s.«end» D rest

/-- The committed partition invariant of the spec: a non-empty split list
that tiles `[0, totalDuration]` gaplessly. -/
def isPartition (D : ℚ) (l : List Split) : Prop := l ≠ [] ∧ chainFrom 0 D l

/-! ### Concrete sample segments for witnesses and counterexamples -/

/-- A unit segment `[0, 1]`. -/
def segA : Split := { id := 1, start := 0, «end» := 1, duration := 1 }

/-- A unit segment `[1, 2]`. -/
def segB : Split := { id := 2, start := 1, «end» := 2, duration := 1 }

/-- A unit segment `[2, 3]`. -/
def segC : Split := { id := 3, start := 2, «end» := 3, duration := 1 }

/-- A locked unit segment `[0, 1]`. -/
def segAlocked : Split := { id := 1, start := 0, «end» := 1, duration := 1, locked := true }

/-- A unit segment `[0, 1]` carrying a thumbnail. -/
def segAthumb : Split := { id := 1, start := 0, «end» := 1, duration := 1, thumbnail := some 7 }

/-- The initial single full-duration segment of a 90-second video. -/
def segInit90 : Split := { id := 1, start := 0, «end» := 90, duration := 90 }

/-! ### C2 — ripple delete -/

/-- C2: evaluating `deleteSelected` with `rippleMode = true` at the failing
input: deleting `segB` from the ordered, contiguous `[segA, segB, segC]`
leaves two segments that BOTH start at time 0 (the source never advances
`currentTime`), instead of being re-packed back-to-back; the result is not
gapless. -/
theorem rippleDelete_failing_input :
    (deleteSelected true [2] [segA, segB, segC]).map (fun s => (s.start, s.«end»)) =
      [(0, 1), (0, 1)] ∧
    ¬ (deleteSelected true [2] [segA, segB, segC]).Chain'
      (fun a b => a.«end» = b.start) := by
  constructor
  · norm_num [deleteSelected, sortByStart, selectedOf, byStart, segA, segB, segC]
    rw [if_neg (by simp)]
    norm_num
  · norm_num [deleteSelected, sortByStart, selectedOf, byStart, segA, segB, segC]
    rw [if_neg (by simp)]
    norm_num

/-! ### C3 — deleteSelected and locked segments -/

/-- C3: evaluating `deleteSelected` at the failing input: `segAlocked` is
locked and NOT in the selection `[2]`, yet it is removed by the delete (the
source keeps only segments that are both unselected and unlocked). -/
theorem deleteSelected_failing_input :
    segAlocked.locked = true ∧ segAlocked.id ∉ ([2] : List Nat) ∧
    segAlocked ∉ deleteSelected false [2] [segAlocked, segB, segC] ∧
    deleteSelected false [2] [segAlocked, segB, segC] = [segC] := by
  refine ⟨rfl, by norm_num [segAlocked], ?_, ?_⟩
  · norm_num [deleteSelected, segAlocked, segB, segC]
  · norm_num [deleteSelected, segAlocked, segB, segC]

/-! ### C8 — snap threshold boundary -/

/-- Helper: with every reference at distance at least the threshold,
`snapTime` returns the candidate unchanged. -/
theorem snapTime_of_far (t : ℚ) (refs : List ℚ)
    (hall : ∀ r ∈ refs, SNAP_THRESHOLD ≤ |t - r|) : snapTime true t refs = t := by
  have hnone : refs.find? (fun r => decide (|t - r| < SNAP_THRESHOLD)) = none := by
    rw [List.find?_eq_none]
    intro r hr
    simpa using not_lt.mpr (hall r hr)
  simp [snapTime, hnone]

/-- Helper: with some reference strictly within the threshold, `snapTime`
returns such a reference. -/
theorem snapTime_of_near (t : ℚ) (refs : List ℚ)
    (hex : ∃ r ∈ refs, |t - r| < SNAP_THRESHOLD) :
    ∃ r ∈ refs, |t - r| < SNAP_THRESHOLD ∧ snapTime true t refs = r := by
  obtain ⟨r, hr, hlt⟩ := hex
  cases hf : refs.find? (fun r => decide (|t - r| < SNAP_THRESHOLD)) with
  | none =>
    exact absurd (by simpa using hlt) (by simpa using List.find?_eq_none.mp hf r hr)
  | some r2 =>
    refine ⟨r2, List.mem_of_find?_eq_some hf, ?_, by simp [snapTime, hf]⟩
    simpa using List.find?_some hf

/-- C8 counterexample: at distance exactly `SNAP_THRESHOLD` (reference
`0.08`, candidate `0`) the reference is within the threshold inclusive, yet
`snapTime` returns the candidate unchanged and no reference is returned —
the source compares with strict `<`, not inclusively. -/
theorem snapTime_inclusive_counterexample :
    |(0 : ℚ) - 2 / 25| ≤ SNAP_THRESHOLD ∧
    snapTime true 0 [2 / 25] = 0 ∧
    ∀ r ∈ [(2 / 25 : ℚ)], snapTime true 0 [2 / 25] ≠ r := by
  have h0 : snapTime true (0 : ℚ) [2 / 25] = 0 :=
    snapTime_of_far 0 [2 / 25] (by norm_num [SNAP_THRESHOLD, le_abs])
  refine ⟨by norm_num [SNAP_THRESHOLD, abs_le], h0, ?_⟩
  intro r hr
  rw [h0]
  have : r = 2 / 25 := by simpa using hr
  rw [this]
  norm_num

/-- C8 (amended): with snapping disabled `snapTime` returns the candidate
unchanged; with snapping enabled it returns the candidate unchanged when
every reference is at distance at least `SNAP_THRESHOLD` (exclusive
threshold), and returns a reference strictly within the threshold whenever
one exists. -/
theorem snapTime_spec (t : ℚ) (refs : List ℚ) :
    snapTime false t refs = t ∧
    ((∀ r ∈ refs, SNAP_THRESHOLD ≤ |t - r|) → snapTime true t refs = t) ∧
    ((∃ r ∈ refs, |t - r| < SNAP_THRESHOLD) →
      ∃ r ∈ refs, |t - r| < SNAP_THRESHOLD ∧ snapTime true t refs = r) :=
  ⟨rfl, snapTime_of_far t refs, snapTime_of_near t refs⟩

/-- Witness for C8's theorem at concrete inputs. -/
theorem snapTime_spec_witness :
    snapTime false (0 : ℚ) [1] = 0 ∧ snapTime true (0 : ℚ) [1] = 0 ∧
    snapTime true (0 : ℚ) [1 / 50] = 1 / 50 := by
  refine ⟨(snapTime_spec 0 [1]).1,
    (snapTime_spec 0 [1]).2.1 (by norm_num [SNAP_THRESHOLD, le_abs]), ?_⟩
  obtain ⟨r, hr, _, he⟩ :=
    (snapTime_spec 0 [1 / 50]).2.2 ⟨1 / 50, by norm_num, by norm_num [SNAP_THRESHOLD, abs_lt]⟩
  have : r = 1 / 50 := by simpa using hr
  rw [this] at he
  exact he

/-! ### C9 — coordinate mapper -/

/-- C9 counterexample: with a degenerate media duration `totalDuration = 0`
and timeline width 1000, `pxToTime 500` evaluates to `1/2`, which is NOT
clamped into `[0, totalDuration] = [0, 0]` — the source clamps into
`[0, max 1 totalDuration]` instead. -/
theorem pxToTime_clamp_counterexample :
    pxToTime 0 1000 500 = 1 / 2 ∧ ¬ (pxToTime 0 1000 500 ≤ 0) := by
  constructor
  · norm_num [pxToTime]
  · norm_num [pxToTime]

/-- C9 (amended): for every `t ∈ [0, totalDuration]` and positive timeline
width, `pxToTime (timeToPx t) = t` exactly, and `pxToTime` clamps its result
to `[0, max 1 totalDuration]` (not `[0, totalDuration]`); the divisor
`max 1 duration` means a degenerate duration never divides by zero. -/
theorem pxToTime_timeToPx_roundTrip (duration W t : ℚ) (h0 : 0 ≤ t)
    (h1 : t ≤ duration) (hW : 0 < W) :
    pxToTime duration W (timeToPx duration W t) = t ∧
    ∀ px, 0 ≤ pxToTime duration W px ∧ pxToTime duration W px ≤ max 1 duration := by
  have htot : (0 : ℚ) < max 1 duration := lt_of_lt_of_le one_pos (le_max_left 1 duration)
  constructor
  · have hround : t / max 1 duration * W / W * max 1 duration = t := by
      field_simp
      ring
    have hle : t ≤ max 1 duration := le_trans h1 (le_max_right 1 duration)
    simp only [pxToTime, timeToPx, hround]
    rw [min_eq_right hle, max_eq_right h0]
  · intro px
    refine ⟨le_max_left 0 _, ?_⟩
    exact max_le htot.le (min_le_left _ _)

/-- Witness for C9's theorem at concrete inputs. -/
theorem pxToTime_timeToPx_roundTrip_witness :
    pxToTime 2 1000 (timeToPx 2 1000 1) = 1 :=
  (pxToTime_timeToPx_roundTrip 2 1000 1 (by norm_num) (by norm_num) (by norm_num)).1

/-! ### C4 — bulk operations and locked segments -/

/-- C4 counterexample: `segAlocked` is locked and selected; `toggleMute`
still flips its `muted` flag — the source excludes no locked segment from
the bulk mute (nor from speed or merge). -/
theorem lockedBulkOps_counterexample :
    segAlocked.locked = true ∧ segAlocked.muted = false ∧
    (toggleMute [1] [segAlocked]).map (fun s => s.muted) = [true] := by
  refine ⟨rfl, rfl, ?_⟩
  norm_num [toggleMute, segAlocked]

/-- C4 (amended): `toggleMute`, `changeSpeed` and `mergeSelected` leave
every segment whose id is not selected — in particular every unselected
locked segment — in the result unchanged (never consumed by a merge); a
SELECTED locked segment, however, is modified like any other (see the
counterexample). -/
theorem bulk_ops_preserve_unselected (sel : List Nat) (splits : List Split) (v : ℚ)
    (nid : Nat) (s : Split) (hs : s ∈ splits) (hsel : s.id ∉ sel) :
    s ∈ toggleMute sel splits ∧ s ∈ changeSpeed v sel splits ∧
    s ∈ mergeSelected nid sel splits := by
  refine ⟨?_, ?_, ?_⟩
  · unfold toggleMute
    split
    · exact hs
    · exact List.mem_map.mpr ⟨s, hs, by simp [hsel]⟩
  · unfold changeSpeed
    split
    · exact hs
    · exact List.mem_map.mpr ⟨s, hs, by simp [hsel]⟩
  · unfold mergeSelected
    split
    · exact hs
    · split
      · exact hs
      · split
        · have hmem : s ∈ splits.filter (fun x => !(decide (x.id ∈ sel))) :=
            List.mem_filter.mpr ⟨hs, by simp [hsel]⟩
          simp only [sortByStart, List.mem_insertionSort, List.mem_append]
          exact Or.inl hmem
        · exact hs

/-- Witness for C4's theorem at concrete inputs. -/
theorem bulk_ops_preserve_unselected_witness :
    segAlocked ∈ toggleMute [2] [segAlocked, segB] ∧
    segAlocked ∈ changeSpeed 2 [2] [segAlocked, segB] ∧
    segAlocked ∈ mergeSelected 99 [2] [segAlocked, segB] :=
  bulk_ops_preserve_unselected [2] [segAlocked, segB] 2 99 segAlocked (by simp)
    (by norm_num [segAlocked])

/-! ### C5 — duplicateSelected -/

/-- C5 counterexample: duplicating the selected segment `segAthumb` (which
carries thumbnail 7) produces a copy (fresh id 100) whose thumbnail is still
`some 7` — the source copies the thumbnail instead of clearing it. -/
theorem duplicate_thumbnail_counterexample :
    (duplicateSelected [1] 100 [segAthumb]).map (fun s => (s.id, s.thumbnail)) =
      [(1, some 7), (100, some 7)] ∧ (some 7 : Option Nat) ≠ none := by
  constructor
  · norm_num [duplicateSelected, dupCopies, selectedOf, sortByStart, byStart,
      listMaxEnd, segAthumb, List.enum]
  · simp

/-- Helper: mapping `f` over an `enumFrom`-indexed list yields a pointwise
`Forall₂` relation with the original list. -/
theorem forall₂_enumFrom_map {P : Split → Split → Prop} (f : Nat × Split → Split)
    (hP : ∀ (i : Nat) (s : Split), P (f (i, s)) s) :
    ∀ (n : Nat) (l : List Split), List.Forall₂ P ((l.enumFrom n).map f) l
  | _, [] => List.Forall₂.nil
  | n, a :: l => List.Forall₂.cons (hP n a) (forall₂_enumFrom_map f hP (n + 1) l)

/-- C5 (amended): `duplicateSelected` re-sorts by start; the result is a
permutation of the original segments plus the copies; each copy keeps the
thumbnail (NOT cleared), label and prompt of its source, spans the same
length of time, carries a fresh id (`≥ nextId`, hence distinct from every
existing id when `nextId` is larger than all of them), and is placed at
`maxEnd + (source.start - firstSelected.start)` — the first copy exactly at
the maximum end, relative offsets preserved. -/
theorem duplicateSelected_spec (sel : List Nat) (nid : Nat) (splits : List Split)
    (hsel : sel ≠ []) (hfresh : ∀ s ∈ splits, s.id < nid) :
    (duplicateSelected sel nid splits).Sorted byStart ∧
    List.Perm (duplicateSelected sel nid splits) (splits ++ dupCopies sel nid splits) ∧
    List.Forall₂ (fun c s =>
        c.thumbnail = s.thumbnail ∧ c.label = s.label ∧ c.prompt = s.prompt ∧
        c.«end» - c.start = s.«end» - s.start ∧ nid ≤ c.id ∧
        ∀ s0 ∈ (selectedOf sel splits).head?,
          c.start = listMaxEnd splits + (s.start - s0.start))
      (dupCopies sel nid splits) (selectedOf sel splits) ∧
    ∀ c ∈ dupCopies sel nid splits, ∀ s ∈ splits, c.id ≠ s.id := by
  refine ⟨?_, ?_, ?_, ?_⟩
  · rw [duplicateSelected, if_neg hsel]
    exact List.sorted_insertionSort byStart _
  · rw [duplicateSelected, if_neg hsel]
    exact List.perm_insertionSort byStart _
  · rcases h2 : selectedOf sel splits with _ | ⟨s0, tail⟩
    · simp only [dupCopies, h2]
      exact List.Forall₂.nil
    · simp only [dupCopies, h2, List.enum]
      exact forall₂_enumFrom_map _ (fun i s => by
        refine ⟨rfl, rfl, rfl, by ring, Nat.le_add_right nid i, ?_⟩
        intro s0m hs0m
        simp only [List.head?_cons, Option.mem_def, Option.some.injEq] at hs0m
        subst hs0m
        rfl) 0 (s0 :: tail)
  · intro c hc s hs
    rcases h2 : selectedOf sel splits with _ | ⟨s0, tail⟩
    · rw [dupCopies, h2] at hc
      simp at hc
    · rw [dupCopies, h2] at hc
      simp only [List.mem_map] at hc
      obtain ⟨p, _, rfl⟩ := hc
      have := hfresh s hs
      simp only []
      omega

/-- Witness for C5's theorem at concrete inputs. -/
theorem duplicateSelected_spec_witness :
    List.Perm (duplicateSelected [1] 100 [segA]) ([segA] ++ dupCopies [1] 100 [segA]) :=
  (duplicateSelected_spec [1] 100 [segA] (by simp) (by norm_num [segA])).2.1

/-! ### C10 — the provider's setSplits -/

/-- Helper: `mapLast` preserves length. -/
theorem mapLast_length (f : Split → Split) : ∀ l, (mapLast f l).length = l.length
  | [] => rfl
  | [_] => rfl
  | _ :: b :: rest => by
    show (mapLast f (b :: rest)).length + 1 = (b :: rest).length + 1
    rw [mapLast_length f (b :: rest)]

/-- Helper: `mapLast` leaves all but the last element unchanged. -/
theorem mapLast_dropLast (f : Split → Split) : ∀ l, (mapLast f l).dropLast = l.dropLast
  | [] => rfl
  | [_] => rfl
  | a :: b :: rest => by
    have ih := mapLast_dropLast f (b :: rest)
    cases h : mapLast f (b :: rest) with
    | nil => cases rest <;> simp [mapLast] at h
    | cons x xs =>
      show (a :: mapLast f (b :: rest)).dropLast = (a :: b :: rest).dropLast
      rw [h, List.dropLast_cons₂, ← h, ih, List.dropLast_cons₂]

/-- Helper: the last element of `mapLast f l` is `f` of the last of `l`. -/
theorem mapLast_getLast? (f : Split → Split) :
    ∀ l, (mapLast f l).getLast? = l.getLast?.map f
  | [] => rfl
  | [_] => rfl
  | a :: b :: rest => by
    have ih := mapLast_getLast? f (b :: rest)
    cases h : mapLast f (b :: rest) with
    | nil => cases rest <;> simp [mapLast] at h
    | cons x xs =>
      show (a :: mapLast f (b :: rest)).getLast? = ((a :: b :: rest).getLast?).map f
      rw [h, List.getLast?_cons_cons, ← h, ih, List.getLast?_cons_cons]

/-- C10 counterexample: with the media duration `1/3` (not representable in
3 decimals), `setSplits` stores a last segment ending at `round3 (1/3) =
0.333`, which is NOT exactly the media duration — the source assigns
`+duration.toFixed(3)`. -/
theorem setSplits_end_counterexample :
    (setSplits (some (1 / 3)) [segA]).map (fun s => s.«end») = [333 / 1000] ∧
    (333 / 1000 : ℚ) ≠ 1 / 3 := by
  constructor
  · norm_num [setSplits, mapLast, round3, segA]
  · norm_num

/-- C10 (amended): for every non-empty input while the media duration `d` is
known, `setSplits` keeps the length; every split but the last is stored with
its duration recomputed as `round3 (end - start)` and all other fields
unchanged; and the last split is forced to end at `round3 d` (the media
duration rounded to 3 decimals, not exactly `d`) with duration
`max 0 (round3 (d - sum of the other recomputed durations))`. -/
theorem setSplits_spec (d : ℚ) (s : List Split) (hs : s ≠ []) :
    (setSplits (some d) s).length = s.length ∧
    (setSplits (some d) s).dropLast =
      s.dropLast.map (fun b => { b with duration := round3 (b.«end» - b.start) }) ∧
    ∀ lastS ∈ (setSplits (some d) s).getLast?,
      lastS.«end» = round3 d ∧
      lastS.duration =
        max 0 (round3 (d - (s.dropLast.map (fun b => round3 (b.«end» - b.start))).sum)) := by
  have hsum : ((s.map (fun ss => { ss with duration := round3 (ss.«end» - ss.start) })).dropLast.map
        (fun b => b.duration)).sum =
      (s.dropLast.map (fun b => round3 (b.«end» - b.start))).sum := by
    rw [← List.map_dropLast, List.map_map]
    rfl
  refine ⟨?_, ?_, ?_⟩
  · rw [setSplits, if_neg hs]
    rw [mapLast_length, List.length_map]
  · rw [setSplits, if_neg hs]
    rw [mapLast_dropLast, ← List.map_dropLast]
  · intro lastS hlast
    rw [setSplits, if_neg hs] at hlast
    rw [mapLast_getLast?] at hlast
    rcases hg : (s.map (fun ss => { ss with duration := round3 (ss.«end» - ss.start) })).getLast?
      with _ | lastN
    · rw [hg] at hlast
      simp at hlast
    · rw [hg] at hlast
      simp only [Option.mem_def, Option.map_some', Option.some.injEq] at hlast
      subst hlast
      exact ⟨rfl, by rw [hsum]⟩

/-- Witness for C10's theorem at concrete inputs. -/
theorem setSplits_spec_witness :
    (setSplits (some 2) [segA]).length = [segA].length :=
  (setSplits_spec 2 [segA] (by simp)).1

/-! ### C7 — undo/redo -/

/-- Helper: immediately after `saveToHistory`, the cursor sits on the last
history entry, which snapshots the (unchanged) live splits and markers. -/
theorem saveToHistory_committed (st : EditorState) :
    (saveToHistory st).historyIndex = ((saveToHistory st).history.length : Int) - 1 ∧
    (saveToHistory st).history.getLast? = some ⟨st.splits, st.markers⟩ ∧
    (saveToHistory st).splits = st.splits ∧ (saveToHistory st).markers = st.markers := by
  refine ⟨rfl, ?_, rfl, rfl⟩
  simp only [saveToHistory]
  split
  case isTrue h =>
    have h1 : 1 ≤ (st.history.take (st.historyIndex + 1).toNat).length := by
      simp only [List.length_append, List.length_singleton] at h
      omega
    rw [List.drop_append_of_le_length h1, List.getLast?_concat]
  case isFalse h =>
    exact List.getLast?_concat _

/-- Helper: `redo` is a no-op when the cursor is on the last entry. -/
theorem redo_at_last (st : EditorState)
    (h : st.historyIndex = (st.history.length : Int) - 1) : redo st = st := by
  unfold redo
  rw [if_neg (by omega)]

/-- Helper: `undo` is a no-op when the cursor is at index 0. -/
theorem undo_at_zero (st : EditorState) (h : st.historyIndex = 0) : undo st = st := by
  unfold undo
  rw [if_neg (by omega)]

/-- Helper: on a committed state — cursor on the last entry, last entry equal
to the live snapshot — `redo` inverts `undo`. -/
theorem redo_undo_committed (st : EditorState)
    (hidx : st.historyIndex = (st.history.length : Int) - 1)
    (hlast : st.history.getLast? = some ⟨st.splits, st.markers⟩) :
    redo (undo st) = st := by
  by_cases h0 : 0 < st.historyIndex
  · have hlen : 2 ≤ st.history.length := by omega
    have hbound : (st.historyIndex - 1).toNat < st.history.length := by omega
    have hundo : undo st = { st with
        splits := (st.history.get ⟨(st.historyIndex - 1).toNat, hbound⟩).splits,
        markers := (st.history.get ⟨(st.historyIndex - 1).toNat, hbound⟩).markers,
        historyIndex := st.historyIndex - 1 } := by
      unfold undo
      rw [if_pos h0, List.getElem?_eq_getElem hbound]
      rfl
    have hcond : st.historyIndex - 1 < (st.history.length : Int) - 1 := by omega
    have hix : ((st.historyIndex - 1) + 1).toNat = st.history.length - 1 := by omega
    have hget : st.history[((st.historyIndex - 1) + 1).toNat]? =
        some ⟨st.splits, st.markers⟩ := by
      rw [hix, ← List.getLast?_eq_getElem?, hlast]
    rw [hundo]
    unfold redo
    rw [if_pos hcond, hget]
    ext
    · rfl
    · rfl
    · rfl
    · show st.historyIndex - 1 + 1 = st.historyIndex
      omega
  · have hne : st.history ≠ [] := by
      intro hcon
      rw [hcon] at hlast
      simp at hlast
    have hlen1 : 1 ≤ st.history.length := by
      cases hh : st.history with
      | nil => exact absurd hh hne
      | cons a l => simp
    have hz : st.historyIndex = 0 := by omega
    rw [undo_at_zero st hz]
    exact redo_at_last st hidx

/-- C7: for every state reached by a commit (`saveToHistory`),
`redo (undo X) = X`; `undo` at cursor 0 is a no-op leaving the state (hence
the oldest entry) unchanged; and `redo` with the cursor on the last entry is
a no-op. -/
theorem undo_redo_spec (st0 : EditorState) :
    redo (undo (saveToHistory st0)) = saveToHistory st0 ∧
    ((saveToHistory st0).historyIndex = 0 →
      undo (saveToHistory st0) = saveToHistory st0) ∧
    redo (saveToHistory st0) = saveToHistory st0 := by
  obtain ⟨hidx, hlast, hsp, hmk⟩ := saveToHistory_committed st0
  refine ⟨redo_undo_committed _ hidx ?_, fun h0 => undo_at_zero _ h0, redo_at_last _ hidx⟩
  rw [hsp, hmk]
  exact hlast

/-! ### C6 — split/merge round-trip -/

/-- C6: splitting a non-locked segment `S` (with derived duration) at an
interior time `t` at distance at least `MIN_PART` from both edges, then
immediately merging the two resulting segments, yields a single segment with
exactly `S`'s start, end and duration. -/
theorem split_merge_roundTrip (S : Split) (t : ℚ) (n1 n2 : Nat)
    (hlock : S.locked = false)
    (hdur : S.duration = S.«end» - S.start)
    (h1 : MIN_PART ≤ t - S.start) (h2 : MIN_PART ≤ S.«end» - t) :
    (mergeSelected n2 [n1, n1 + 1] (splitAtPlayhead t n1 [S])).map
      (fun m => (m.start, m.«end», m.duration)) = [(S.start, S.«end», S.duration)] := by
  have hmp : (0 : ℚ) < MIN_PART := by norm_num [MIN_PART]
  have hst : S.start < t := by
    rw [MIN_PART] at h1
    rw [MIN_PART] at hmp
    linarith
  have hte : t < S.«end» := by
    rw [MIN_PART] at h2
    rw [MIN_PART] at hmp
    linarith
  have hsplit : splitAtPlayhead t n1 [S] =
      [{ S with id := n1, «end» := t, duration := t - S.start, thumbnail := none },
       { S with id := n1 + 1, start := t, duration := S.«end» - t, thumbnail := none }] := by
    unfold splitAtPlayhead
    rw [if_pos ⟨le_of_lt hst, hte⟩, if_neg (by simp [hlock]),
      if_neg (by push_neg; exact ⟨h1, h2⟩)]
  rw [hsplit]
  have hselOf : selectedOf [n1, n1 + 1]
      [{ S with id := n1, «end» := t, duration := t - S.start, thumbnail := none },
       { S with id := n1 + 1, start := t, duration := S.«end» - t, thumbnail := none }] =
      [{ S with id := n1, «end» := t, duration := t - S.start, thumbnail := none },
       { S with id := n1 + 1, start := t, duration := S.«end» - t, thumbnail := none }] := by
    simp [selectedOf]
  unfold mergeSelected
  rw [if_neg (by simp)]
  rw [hselOf]
  have hsort : sortByStart
      [{ S with id := n1, «end» := t, duration := t - S.start, thumbnail := none },
       { S with id := n1 + 1, start := t, duration := S.«end» - t, thumbnail := none }] =
      [{ S with id := n1, «end» := t, duration := t - S.start, thumbnail := none },
       { S with id := n1 + 1, start := t, duration := S.«end» - t, thumbnail := none }] := by
    simp only [sortByStart, List.insertionSort, List.orderedInsert]
    split
    case isTrue => rfl
    case isFalse h => exact absurd (le_of_lt hst) h
  rw [hsort]
  have hcan : canMergeChain
      [{ S with id := n1, «end» := t, duration := t - S.start, thumbnail := none },
       { S with id := n1 + 1, start := t, duration := S.«end» - t, thumbnail := none }] = true := by
    simp only [canMergeChain, Bool.and_true]
    rw [decide_eq_true_eq]
    show |t - t| ≤ 1 / 1000
    rw [sub_self, abs_zero]
    norm_num
  have hfilter : List.filter (fun s => !(decide (s.id ∈ [n1, n1 + 1])))
      [{ S with id := n1, «end» := t, duration := t - S.start, thumbnail := none },
       { S with id := n1 + 1, start := t, duration := S.«end» - t, thumbnail := none }] = [] := by
    simp
  simp only [hcan, if_true, hfilter, List.nil_append, sortByStart, List.insertionSort,
    List.orderedInsert, List.getLast, List.map]
  rw [hdur]

/-- Witness for C6's theorem at concrete inputs. -/
theorem split_merge_roundTrip_witness :
    (mergeSelected 20 [10, 10 + 1] (splitAtPlayhead (1 / 2) 10 [segA])).map
      (fun m => (m.start, m.«end», m.duration)) =
      [(segA.start, segA.«end», segA.duration)] :=
  split_merge_roundTrip segA (1 / 2) 10 20 rfl (by norm_num [segA])
    (by norm_num [segA, MIN_PART]) (by norm_num [segA, MIN_PART])

/-! ### C1 — partition invariant -/

/-- Helper: `splitAtPlayhead` preserves the exact tiling of `[a, D]`. -/
theorem chainFrom_splitAtPlayhead (t : ℚ) (nid : Nat) :
    ∀ (a D : ℚ) (l : List Split), chainFrom a D l → chainFrom a D (splitAtPlayhead t nid l)
  | _, _, [], h => h
  | a, D, s :: rest, h => by
    obtain ⟨hs, hrest⟩ := h
    unfold splitAtPlayhead
    split
    case isTrue hin =>
      split
      case isTrue => exact ⟨hs, hrest⟩
      case isFalse =>
        split
        case isTrue => exact ⟨hs, hrest⟩
        case isFalse => exact ⟨hs, rfl, hrest⟩
    case isFalse hin =>
      exact ⟨hs, chainFrom_splitAtPlayhead t nid s.«end» D rest hrest⟩

/-- Helper: `splitAtPlayhead` never empties the split list. -/
theorem splitAtPlayhead_ne_nil (t : ℚ) (nid : Nat) :
    ∀ l : List Split, l ≠ [] → splitAtPlayhead t nid l ≠ []
  | [], h => absurd rfl h
  | s :: rest, _ => by
    unfold splitAtPlayhead
    split
    · split
      · simp
      · split <;> simp
    · simp

/-- Helper: moving the boundary between positions `idx` and `idx + 1` to any
time `b` — setting `left.end := b` and `right.start := b` — preserves the
tiling of `[a, D]`. -/
theorem chainFrom_setBoundary :
    ∀ (idx : Nat) (a D b : ℚ) (l : List Split) (left right : Split),
      chainFrom a D l → l[idx]? = some left → l[idx + 1]? = some right →
      chainFrom a D
        ((l.set idx { left with «end» := b, duration := b - left.start }).set (idx + 1)
          { right with start := b, duration := right.«end» - b })
  | _, _, _, _, [], _, _, _, h1, _ => by simp at h1
  | 0, a, D, b, s :: rest, left, right, h, h1, h2 => by
    obtain ⟨hs, hrest⟩ := h
    simp only [List.getElem?_cons_zero, Option.some.injEq] at h1
    subst h1
    cases rest with
    | nil => simp at h2
    | cons r rest2 =>
      simp only [List.getElem?_cons_succ, List.getElem?_cons_zero, Option.some.injEq] at h2
      subst h2
      obtain ⟨hr, hrest2⟩ := hrest
      exact ⟨hs, rfl, hrest2⟩
  | n + 1, a, D, b, s :: rest, left, right, h, h1, h2 => by
    obtain ⟨hs, hrest⟩ := h
    simp only [List.getElem?_cons_succ] at h1 h2
    exact ⟨hs, chainFrom_setBoundary n s.«end» D b rest left right hrest h1 h2⟩

/-- Helper: one committed boundary drag preserves the partition. -/
theorem isPartition_dragBoundary (D dt : ℚ) (snapOn : Bool) (markerTimes : List ℚ)
    (idx : Nat) (l : List Split) (h : isPartition D l) :
    isPartition D (dragBoundary snapOn markerTimes idx dt l) := by
  obtain ⟨hne, hchain⟩ := h
  unfold dragBoundary
  split
  case h_1 left right heq1 heq2 =>
    split
    case isTrue => exact ⟨hne, hchain⟩
    case isFalse =>
      refine ⟨?_, chainFrom_setBoundary idx 0 D _ l left right hchain heq1 heq2⟩
      have hlen : 0 < l.length := List.length_pos.mpr hne
      apply List.length_pos.mp
      simpa [List.length_set] using hlen
  case h_2 =>
    exact ⟨hne, hchain⟩

/-- C1 counterexample: starting from the committed initial single
full-duration segment of a 90-second video, one committed `duplicateSelected`
(which is not a delete of any kind) yields sorted segments `[0,90], [90,180]`
whose last end misses `totalDuration = 90` by far more than the `1e-3`
tolerance — the partition invariant does not survive every non-delete
commit. -/
theorem partition_counterexample :
    isPartition 90 [segInit90] ∧
    (duplicateSelected [1] 2 [segInit90]).map (fun s => (s.start, s.«end»)) =
      [(0, 90), (90, 180)] ∧
    ¬ chainFrom 0 90 (duplicateSelected [1] 2 [segInit90]) ∧
    ¬ (|(180 : ℚ) - 90| ≤ 1 / 1000) := by
  have hdup : duplicateSelected [1] 2 [segInit90] =
      [segInit90, { id := 2, start := 90, «end» := 180, duration := 90 }] := by
    norm_num [duplicateSelected, dupCopies, selectedOf, sortByStart, byStart,
      listMaxEnd, segInit90, List.enum, Split.mk.injEq]
  refine ⟨⟨by simp, by norm_num [chainFrom, segInit90]⟩, ?_, ?_, by norm_num⟩
  · rw [hdup]
    norm_num [segInit90]
  · rw [hdup]
    norm_num [chainFrom, segInit90]

/-- C1 (amended): the partition invariant is preserved by a committed split
(`splitAtPlayhead`) and by a committed boundary drag (`startDragHandle`),
for any playhead time, snap setting, markers and drag delta; it is NOT
preserved by every commit — `duplicateSelected` appends past the total
duration (see the counterexample), trims can open gaps, and deletes (ripple
or not) change the covered range. -/
theorem partition_preserved (D t dt : ℚ) (nid idx : Nat) (snapOn : Bool)
    (markerTimes : List ℚ) (splits : List Split) (h : isPartition D splits) :
    isPartition D (splitAtPlayhead t nid splits) ∧
    isPartition D (dragBoundary snapOn markerTimes idx dt splits) :=
  ⟨⟨splitAtPlayhead_ne_nil t nid splits h.1, chainFrom_splitAtPlayhead t nid 0 D splits h.2⟩,
   isPartition_dragBoundary D dt snapOn markerTimes idx splits h⟩

/-- Witness for C1's theorem at concrete inputs. -/
theorem partition_preserved_witness :
    isPartition 2 (splitAtPlayhead (1 / 2) 10 [segA, segB]) :=
  (partition_preserved 2 (1 / 2) 0 10 0 true [] [segA, segB]
    ⟨by simp, by norm_num [chainFrom, segA, segB]⟩).1

end VideoEditor
